import Mathlib

/-
Verification of the position ledger, price-resolution fallback chain and
exit-decision logic of the memecoin paper-trading bot (src/src/index.ts).

Prices, token amounts and cash balances are embedded as exact rationals.
The one place where IEEE-754 special values matter to control flow — the
pnl computation `((currentPrice - entryPrice) / entryPrice) * 100`, whose
divisor may be zero — is embedded via an explicit JavaScript-number model
`JsNum` with signed infinities and NaN, mirroring IEEE semantics for the
operations the source performs on that value.
-/

/-- One open position, as stored in `PortfolioState.positions`
(interface `PortfolioState` of the source). -/
structure Position where
  symbol : String
  amount : ℚ
  entry_price_eth : ℚ
  pool_address : Option String
deriving DecidableEq

/-- The portfolio singleton: cash balance plus the address-keyed position
map, embedded as an association list (JS object keyed by token address). -/
structure PortfolioState where
  cash_eth : ℚ
  positions : List (String × Position)
deriving DecidableEq

/-- Default starting state used by `PortfolioManager.load` when no
portfolio file exists: 1 ETH, no positions. -/
def initialState : PortfolioState :=
  { cash_eth := 1, positions := [] }

/-- Lookup of `positions[address]` in the address-keyed map. -/
def findPos (ps : List (String × Position)) (address : String) : Option Position :=
  match ps with
  | [] => none
  | kv :: rest => if kv.1 = address then some kv.2 else findPos rest address

/-- Assignment `positions[address] = p`: replace the binding if present,
add it otherwise. -/
def setPos (ps : List (String × Position)) (address : String) (p : Position) :
    List (String × Position) :=
  match ps with
  | [] => [(address, p)]
  | kv :: rest =>
    if kv.1 = address then (address, p) :: rest else kv :: setPos rest address p

/-- `delete positions[address]`. -/
def delPos (ps : List (String × Position)) (address : String) :
    List (String × Position) :=
  match ps with
  | [] => []
  | kv :: rest => if kv.1 = address then delPos rest address else kv :: delPos rest address

/-- JavaScript truthiness of an optional string field: `undefined` and the
empty string are falsy. -/
def jsTruthyStr : Option String → Bool
  | some s => s != ""
  | none => false

/-- The fresh position `{ symbol, amount: 0, entry_price_eth: 0 }` created
by `recordBuy` when no position exists at the address. -/
def freshPosition (symbol : String) : Position :=
  { symbol := symbol, amount := 0, entry_price_eth := 0, pool_address := none }

/-- The position `recordBuy` starts from: the existing one, or a fresh one. -/
def posOrFresh (ps : List (String × Position)) (address symbol : String) : Position :=
  match findPos ps address with
  | some p => p
  | none => freshPosition symbol

/-- `if (poolAddress && !pos.pool_address) pos.pool_address = poolAddress`. -/
def poolUpdate (pos : Position) (poolAddress : Option String) : Position :=
  if jsTruthyStr poolAddress && ! jsTruthyStr pos.pool_address then
    { pos with pool_address := poolAddress }
  else pos

/-- The volume-weighted-average update of `recordBuy`: compute
`totalValue` and `totalAmount` and update entry price and amount only when
`totalAmount > 0`. -/
def buyUpdate (pos : Position) (amountToken priceEth : ℚ) : Position :=
  let totalValue := pos.amount * pos.entry_price_eth + amountToken * priceEth
  let totalAmount := pos.amount + amountToken
  if 0 < totalAmount then
    { pos with entry_price_eth := totalValue / totalAmount, amount := totalAmount }
  else pos

/-- `PortfolioManager.recordBuy` (src/src/index.ts lines 163-188): debit
cash, create the position if absent, record the pool address if new, then
apply the guarded weighted-average update. -/
def recordBuy (st : PortfolioState) (symbol address : String)
    (amountEth amountToken priceEth : ℚ) (poolAddress : Option String) :
    PortfolioState :=
  { cash_eth := st.cash_eth - amountEth,
    positions := setPos st.positions address
      (buyUpdate (poolUpdate (posOrFresh st.positions address symbol) poolAddress)
        amountToken priceEth) }

/-- The dust threshold `1e-9` of `recordSell`. -/
def dustThreshold : ℚ := 1 / 1000000000

/-- Body of `recordSell` once the position is known to exist: credit the
proceeds, reduce the amount, delete the position at or below the dust
threshold. -/
def sellUpdate (st : PortfolioState) (address : String) (pos : Position)
    (amountToken executionPriceEth : ℚ) : PortfolioState :=
  if pos.amount - amountToken ≤ dustThreshold then
    { cash_eth := st.cash_eth + amountToken * executionPriceEth,
      positions := delPos st.positions address }
  else
    { cash_eth := st.cash_eth + amountToken * executionPriceEth,
      positions := setPos st.positions address { pos with amount := pos.amount - amountToken } }

/-- `PortfolioManager.recordSell` (src/src/index.ts lines 190-206): no-op
when no position exists at the address. -/
def recordSell (st : PortfolioState) (address : String)
    (amountToken executionPriceEth : ℚ) : PortfolioState :=
  match findPos st.positions address with
  | none => st
  | some pos => sellUpdate st address pos amountToken executionPriceEth

/-- `PortfolioManager.getPositions`: a snapshot of the position map. -/
def getPositions (st : PortfolioState) : List (String × Position) :=
  st.positions

/-- An arbitrary interleaving of ledger mutations. -/
inductive LedgerOp where
  | buy (symbol address : String) (amountEth amountToken priceEth : ℚ)
      (poolAddress : Option String)
  | sell (address : String) (amountToken executionPriceEth : ℚ)

/-- Apply one ledger operation. -/
def applyOp (st : PortfolioState) : LedgerOp → PortfolioState
  | LedgerOp.buy s a e t p pa => recordBuy st s a e t p pa
  | LedgerOp.sell a t p => recordSell st a t p

/-- Apply a sequence of ledger operations in order. -/
def applyOps (st : PortfolioState) (ops : List LedgerOp) : PortfolioState :=
  match ops with
  | [] => st
  | op :: rest => applyOps (applyOp st op) rest

/-- Every position present in the state has a strictly positive amount. -/
def posInvariant (st : PortfolioState) : Prop :=
  ∀ kv ∈ st.positions, 0 < kv.2.amount

/-- A ledger operation that is either a sell, or a buy with a strictly
positive token amount. -/
def buyPositive : LedgerOp → Prop
  | LedgerOp.buy _ _ _ t _ _ => 0 < t
  | LedgerOp.sell _ _ _ => True

/-- One `recordBuy` call of a sequence into a single address: the native
amount spent, the token amount received and the unit price. -/
structure BuyCall where
  nativeSpent : ℚ
  tokensReceived : ℚ
  unitPrice : ℚ
deriving DecidableEq

/-- Fold a sequence of `recordBuy` calls into the same address. -/
def applyBuys (st : PortfolioState) (symbol address : String) :
    List BuyCall → PortfolioState
  | [] => st
  | b :: rest =>
    applyBuys (recordBuy st symbol address b.nativeSpent b.tokensReceived b.unitPrice none)
      symbol address rest

/-- Total token amount of a sequence of buys. -/
def totTokens (l : List BuyCall) : ℚ :=
  (l.map BuyCall.tokensReceived).sum

/-- Total value (amount times unit price, summed) of a sequence of buys. -/
def totValue (l : List BuyCall) : ℚ :=
  (l.map (fun b => b.tokensReceived * b.unitPrice)).sum

/-- A sample open position used to instantiate the ledger theorems. -/
def posA : Position :=
  { symbol := "A", amount := 5, entry_price_eth := 2, pool_address := none }

/-- A sample state holding `posA` at address 0xa. -/
def stA : PortfolioState :=
  { cash_eth := 10, positions := [("0xa", posA)] }

/-- A sample position whose entry price is exactly zero (a buy succeeded
but price resolution failed at buy time). -/
def posZ : Position :=
  { symbol := "Z", amount := 5, entry_price_eth := 0, pool_address := none }

/-- A sample state holding the zero-entry-price position `posZ`. -/
def stZ : PortfolioState :=
  { cash_eth := 1, positions := [("0xz", posZ)] }

/-- JavaScript double as it flows through the pnl computation: a finite
(exact rational) value, a signed infinity, or NaN. -/
inductive JsNum where
  | num (q : ℚ)
  | posInf
  | negInf
  | nan
deriving DecidableEq

/-- IEEE division of finite values: a nonzero value divided by zero gives
a signed infinity, 0/0 gives NaN. -/
def jsDiv (a b : ℚ) : JsNum :=
  if b = 0 then
    if 0 < a then JsNum.posInf else if a < 0 then JsNum.negInf else JsNum.nan
  else JsNum.num (a / b)

/-- IEEE multiplication by a finite constant. -/
def jsMulC : JsNum → ℚ → JsNum
  | JsNum.num q, c => JsNum.num (q * c)
  | JsNum.posInf, c => if 0 < c then JsNum.posInf else if c < 0 then JsNum.negInf else JsNum.nan
  | JsNum.negInf, c => if 0 < c then JsNum.negInf else if c < 0 then JsNum.posInf else JsNum.nan
  | JsNum.nan, _ => JsNum.nan

/-- `x >= c` on a JavaScript number; NaN compares false. -/
def jsGe : JsNum → ℚ → Bool
  | JsNum.num q, c => decide (c ≤ q)
  | JsNum.posInf, _ => true
  | JsNum.negInf, _ => false
  | JsNum.nan, _ => false

/-- `x <= c` on a JavaScript number; NaN compares false. -/
def jsLe : JsNum → ℚ → Bool
  | JsNum.num q, c => decide (q ≤ c)
  | JsNum.posInf, _ => false
  | JsNum.negInf, _ => true
  | JsNum.nan, _ => false

/-- `pnlPercent = ((currentPrice - entryPrice) / entryPrice) * 100`
(src/src/index.ts line 591), in JavaScript-number semantics. -/
def pnlPercent (entryPrice currentPrice : ℚ) : JsNum :=
  jsMulC (jsDiv (currentPrice - entryPrice) entryPrice) 100

/-- The exit actions of the evaluator. -/
inductive ExitAction where
  | sell_tp
  | sell_sl
deriving DecidableEq

/-- The decision block of the evaluator (src/src/index.ts lines 596-598):
`action = null; if (pnlPercent >= 50) action = 'sell_tp';
if (pnlPercent <= -20) action = 'sell_sl';` — two independent ifs, the
second assignment overwriting the first. -/
def decideAction (pnl : JsNum) : Option ExitAction :=
  let a0 : Option ExitAction := none
  let a1 : Option ExitAction := if jsGe pnl 50 then some ExitAction.sell_tp else a0
  if jsLe pnl (-20) then some ExitAction.sell_sl else a1

/-- String tag of an exit action, as written into the trade log. -/
def actionTag : ExitAction → String
  | ExitAction.sell_tp => "sell_tp"
  | ExitAction.sell_sl => "sell_sl"

/-- The fields of a `TradeRecord` the core logic computes (timestamp,
status, tx hash and repo tag are environment-supplied constants). -/
structure TradeRec where
  symbol : String
  address : String
  source : String
  action : String
  amount_eth : ℚ
  amount_token : ℚ
  price_eth : ℚ
deriving DecidableEq

/-- JavaScript's `toLowerCase()`: lower-case every character. -/
def strToLower (s : String) : String :=
  String.mk (s.data.map Char.toLower)

/-- The pure price computation of `RpcPriceFetcher.getPrice`
(src/src/index.ts lines 250-259) on a successful pool read:
`ratio = (sqrtPriceX96 / 2^96)^2` is the price of token0 in token1; the
queried token gets `ratio` if it is token0 (case-insensitive address
comparison) and `1 / ratio` otherwise. `sqrtPriceX96` arrives as a 160-bit
unsigned integer. -/
def getPrice (sqrtPriceX96 : ℚ) (token0 tokenAddress : String) : ℚ :=
  let isToken0 := strToLower tokenAddress == strToLower token0
  let r := (sqrtPriceX96 / 2 ^ 96) ^ 2
  if isToken0 then r else 1 / r

/-- Result of `VincentWallet.getSellQuote` when the quote succeeds. -/
structure SellQuote where
  ethAmount : ℚ
  price : ℚ
deriving DecidableEq

/-- Oracle responses available to one position evaluation: whether the RPC
provider is configured, the result of `rpc.getPrice` were it called
(`none` models a thrown-and-caught failure), and the sell-quote result
(`none` models a failed quote). -/
structure EvalInput where
  rpcReady : Bool
  rpcPrice : Option ℚ
  quote : Option SellQuote
deriving DecidableEq

/-- A sample evaluation input: no RPC provider, but a successful sell
quote of 5 ETH for the 5 tokens of `posZ` (unit price 1). -/
def inpZ : EvalInput :=
  { rpcReady := false, rpcPrice := none,
    quote := some { ethAmount := 5, price := 1 } }

/-- Step 1 of price resolution (src/src/index.ts lines 567-577): the
direct pool read, attempted only when the provider is configured and a
pool address is recorded; `if (rpcPrice)` treats 0 as no result. Returns
`(currentPrice, ethAmount)`, both still 0 on failure. -/
def resolveStep1 (pos : Position) (inp : EvalInput) : ℚ × ℚ :=
  if inp.rpcReady && jsTruthyStr pos.pool_address then
    match inp.rpcPrice with
    | some p => if p ≠ 0 then (p, pos.amount * p) else (0, 0)
    | none => (0, 0)
  else (0, 0)

/-- Price resolution for one position (src/src/index.ts lines 564-587):
the quote fallback runs exactly when step 1 left `currentPrice === 0`. -/
def resolveCurrent (pos : Position) (inp : EvalInput) : ℚ × ℚ :=
  let s1 := resolveStep1 pos inp
  if s1.1 = 0 then
    match inp.quote with
    | some q => (q.price, q.ethAmount)
    | none => s1
  else s1

/-- The `TradeRecord` logged on a triggered exit (src/src/index.ts lines
603-615); `amount_eth` is `ethAmount || (pos.amount * currentPrice)`. -/
def sellTradeRec (pos : Position) (address : String) (act : ExitAction)
    (currentPrice ethAmount : ℚ) : TradeRec :=
  { symbol := pos.symbol, address := address, source := "portfolio",
    action := actionTag act,
    amount_eth := if ethAmount ≠ 0 then ethAmount else pos.amount * currentPrice,
    amount_token := pos.amount, price_eth := currentPrice }

/-- One iteration of the TP/SL loop of `main` (src/src/index.ts lines
562-628) for the snapshot entry `(address, pos)`: resolve a price; if it
is positive, compute the pnl and the action; on a trigger, sell the whole
position at the resolved price and append a trade record; otherwise leave
state and log untouched. -/
def evalPosition (st : PortfolioState) (log : List TradeRec) (address : String)
    (pos : Position) (inp : EvalInput) : PortfolioState × List TradeRec :=
  let r := resolveCurrent pos inp
  if 0 < r.1 then
    match decideAction (pnlPercent pos.entry_price_eth r.1) with
    | some act =>
      (recordSell st address pos.amount r.1,
       log ++ [sellTradeRec pos address act r.1 r.2])
    | none => (st, log)
  else (st, log)

/-- The fixed buy size `0.0001` ETH of the entry logic. -/
def fixedBuySize : ℚ := 1 / 10000

/-- Result of `wallet.swap` for a buy attempt, after the source's
`result.buyAmount || 0` and `result.price || 0` defaulting (a missing
field is 0). -/
structure SwapResult where
  buyAmount : ℚ
  price : ℚ
deriving DecidableEq

/-- Inputs to one buy attempt: the swap result (`none` models a null
result, which short-circuits the whole block), RPC readiness and the
direct-pool price were it consulted. -/
structure BuyInput where
  swapResult : Option SwapResult
  rpcReady : Bool
  rpcPrice : Option ℚ
deriving DecidableEq

/-- The effective `(buyAmount, priceEth)` of a buy attempt
(src/src/index.ts lines 676-688): the pool-price estimate
`buyAmt / priceEth` is consulted only when the quoted amount is exactly 0,
the provider is configured and a pool address is known, and `if (rpcPrice)`
treats 0 as no result. -/
def buyEffective (poolAddress : Option String) (inp : BuyInput) (r : SwapResult) :
    ℚ × ℚ :=
  if r.buyAmount = 0 ∧ inp.rpcReady = true ∧ jsTruthyStr poolAddress = true then
    match inp.rpcPrice with
    | some p => if p ≠ 0 then (fixedBuySize / p, p) else (r.buyAmount, r.price)
    | none => (r.buyAmount, r.price)
  else (r.buyAmount, r.price)

/-- The `TradeRecord` logged for a buy attempt (src/src/index.ts lines
696-708). -/
def buyTradeRec (symbol address : String) (buyAmount priceEth : ℚ) : TradeRec :=
  { symbol := symbol, address := address, source := "clanker", action := "buy",
    amount_eth := fixedBuySize, amount_token := buyAmount, price_eth := priceEth }

/-- One buy attempt of `main` (src/src/index.ts lines 672-708): nothing
happens on a null swap result; otherwise the position is recorded only
when the effective amount is positive, and the trade record is appended
unconditionally. -/
def buyStep (st : PortfolioState) (log : List TradeRec) (symbol address : String)
    (poolAddress : Option String) (inp : BuyInput) : PortfolioState × List TradeRec :=
  match inp.swapResult with
  | none => (st, log)
  | some r =>
    let e := buyEffective poolAddress inp r
    let st2 :=
      if 0 < e.1 then recordBuy st symbol address fixedBuySize e.1 e.2 poolAddress
      else st
    (st2, log ++ [buyTradeRec symbol address e.1 e.2])

/-- Looking up the address just assigned returns the assigned position. -/
theorem findPos_setPos_self (ps : List (String × Position)) (address : String)
    (p : Position) : findPos (setPos ps address p) address = some p := by
  induction ps with
  | nil => simp [setPos, findPos]
  | cons kv rest ih =>
    by_cases h : kv.1 = address
    · simp [setPos, h, findPos]
    · simp [setPos, h, findPos, ih]

/-- Every entry of the map after an assignment is the assigned binding or
an entry of the original map. -/
theorem mem_setPos {kv : String × Position} {ps : List (String × Position)}
    {address : String} {p : Position} (h : kv ∈ setPos ps address p) :
    kv = (address, p) ∨ kv ∈ ps := by
  induction ps with
  | nil => simpa [setPos] using h
  | cons hd rest ih =>
    by_cases hh : hd.1 = address
    · simp only [setPos, if_pos hh, List.mem_cons] at h
      rcases h with h | h
      · exact Or.inl h
      · exact Or.inr (List.mem_cons_of_mem _ h)
    · simp only [setPos, if_neg hh, List.mem_cons] at h
      rcases h with h | h
      · exact Or.inr (by simp [h])
      · rcases ih h with h2 | h2
        · exact Or.inl h2
        · exact Or.inr (List.mem_cons_of_mem _ h2)

/-- Every entry surviving a deletion was present before and has a
different key. -/
theorem mem_delPos {kv : String × Position} {ps : List (String × Position)}
    {address : String} (h : kv ∈ delPos ps address) : kv ∈ ps ∧ kv.1 ≠ address := by
  induction ps with
  | nil => simp [delPos] at h
  | cons hd rest ih =>
    by_cases hh : hd.1 = address
    · simp only [delPos, if_pos hh] at h
      rcases ih h with ⟨h1, h2⟩
      exact ⟨List.mem_cons_of_mem _ h1, h2⟩
    · simp only [delPos, if_neg hh, List.mem_cons] at h
      rcases h with h | h
      · subst h; exact ⟨List.mem_cons_self _ _, hh⟩
      · rcases ih h with ⟨h1, h2⟩
        exact ⟨List.mem_cons_of_mem _ h1, h2⟩

/-- A successful lookup exhibits a map entry with the looked-up key. -/
theorem findPos_mem {ps : List (String × Position)} {address : String}
    {p : Position} (h : findPos ps address = some p) : (address, p) ∈ ps := by
  induction ps with
  | nil => simp [findPos] at h
  | cons hd rest ih =>
    by_cases hh : hd.1 = address
    · simp only [findPos, if_pos hh, Option.some.injEq] at h
      subst h
      subst hh
      simp
    · simp only [findPos, if_neg hh] at h
      exact List.mem_cons_of_mem _ (ih h)

/-- Cash credited by the existing-position branch of recordSell. -/
theorem sellUpdate_cash (st : PortfolioState) (address : String) (pos : Position)
    (a p : ℚ) : (sellUpdate st address pos a p).cash_eth = st.cash_eth + a * p := by
  by_cases h : pos.amount - a ≤ dustThreshold <;> simp [sellUpdate, h]

/-- C5: recordSell(address, tokensSold, unitPrice) leaves the whole state
unchanged when no position exists at the address; otherwise it credits
cash_eth by exactly tokensSold*unitPrice and decrements the position's
amount by tokensSold, deleting the position entirely when the remainder is
at most 1e-9 so that it is absent from a subsequent getPositions. -/
theorem c5_recordSell_semantics :
    (∀ st address amountToken priceEth,
        findPos st.positions address = none →
        recordSell st address amountToken priceEth = st) ∧
    (∀ st address amountToken priceEth pos,
        findPos st.positions address = some pos →
        (recordSell st address amountToken priceEth).cash_eth
          = st.cash_eth + amountToken * priceEth) ∧
    (∀ st address amountToken priceEth pos,
        findPos st.positions address = some pos →
        pos.amount - amountToken ≤ dustThreshold →
        ∀ kv ∈ getPositions (recordSell st address amountToken priceEth),
          kv.1 ≠ address) ∧
    (∀ st address amountToken priceEth pos,
        findPos st.positions address = some pos →
        dustThreshold < pos.amount - amountToken →
        findPos (recordSell st address amountToken priceEth).positions address
          = some { pos with amount := pos.amount - amountToken }) := by
  refine ⟨?_, ?_, ?_, ?_⟩
  · intro st address a p h
    simp [recordSell, h]
  · intro st address a p pos h
    simp [recordSell, h, sellUpdate_cash]
  · intro st address a p pos h hdust
    simp only [recordSell, h, sellUpdate, if_pos hdust, getPositions]
    intro kv hkv
    exact (mem_delPos hkv).2
  · intro st address a p pos h hdust
    simp only [recordSell, h, sellUpdate, if_neg (not_le.mpr hdust)]
    exact findPos_setPos_self st.positions address _

/-- C5 witness: concrete instances of all four conjuncts. -/
theorem c5_recordSell_semantics_witness :
    recordSell initialState ("0xb") 1 1 = initialState ∧
    (recordSell stA ("0xa") 2 3).cash_eth = stA.cash_eth + 2 * 3 ∧
    (∀ kv ∈ getPositions (recordSell stA ("0xa") 5 3), kv.1 ≠ ("0xa")) ∧
    findPos (recordSell stA ("0xa") 2 3).positions ("0xa")
      = some { posA with amount := posA.amount - 2 } :=
  ⟨c5_recordSell_semantics.1 initialState ("0xb") 1 1 (by decide),
   c5_recordSell_semantics.2.1 stA ("0xa") 2 3 posA (by decide),
   c5_recordSell_semantics.2.2.1 stA ("0xa") 5 3 posA (by decide)
     (by norm_num [posA, dustThreshold]),
   c5_recordSell_semantics.2.2.2 stA ("0xa") 2 3 posA (by decide)
     (by norm_num [posA, dustThreshold])⟩

/-- C6: for a state holding a position at the address, recordSell of `a`
tokens at price `p` followed by recordBuy of the same token amount at the
same price with nativeSpent `a*p` restores cash_eth exactly. -/
theorem c6_roundtrip_cash (st : PortfolioState) (symbol address : String)
    (a p : ℚ) (poolAddress : Option String) (pos : Position)
    (h : findPos st.positions address = some pos) :
    (recordBuy (recordSell st address a p) symbol address (a * p) a p
        poolAddress).cash_eth = st.cash_eth := by
  have hcash : (recordSell st address a p).cash_eth = st.cash_eth + a * p := by
    simp [recordSell, h, sellUpdate_cash]
  simp only [recordBuy, hcash]
  ring

/-- C6 witness: the round trip on the sample state. -/
theorem c6_roundtrip_cash_witness :
    (recordBuy (recordSell stA ("0xa") 2 3) ("A") ("0xa") (2 * 3) 2 3
        none).cash_eth = stA.cash_eth :=
  c6_roundtrip_cash stA ("A") ("0xa") 2 3 none posA (by decide)

/-- C10: recordSell does not cap the sold quantity at the held amount:
selling s > amount still credits the full s*p and, the remainder being
negative (hence at most the dust threshold), deletes the position, so no
negative-amount position is left behind. -/
theorem c10_oversell (st : PortfolioState) (address : String) (s p : ℚ)
    (pos : Position) (h : findPos st.positions address = some pos)
    (hs : pos.amount < s) :
    (recordSell st address s p).cash_eth = st.cash_eth + s * p ∧
    ∀ kv ∈ getPositions (recordSell st address s p), kv.1 ≠ address := by
  have hd : pos.amount - s ≤ dustThreshold := by
    have h0 : (0 : ℚ) ≤ dustThreshold := by norm_num [dustThreshold]
    linarith
  constructor
  · simp [recordSell, h, sellUpdate_cash]
  · simp only [recordSell, h, sellUpdate, if_pos hd, getPositions]
    intro kv hkv
    exact (mem_delPos hkv).2

/-- C10 witness: overselling the 5-token sample position by selling 10. -/
theorem c10_oversell_witness :
    (recordSell stA ("0xa") 10 3).cash_eth = stA.cash_eth + 10 * 3 ∧
    ∀ kv ∈ getPositions (recordSell stA ("0xa") 10 3), kv.1 ≠ ("0xa") :=
  c10_oversell stA ("0xa") 10 3 posA (by decide) (by norm_num [posA])

/-- The evaluator's pnl at a positive entry price is the finite rational
(C - E) / E * 100. -/
theorem pnlPercent_pos_entry (E C : ℚ) (hE : E ≠ 0) :
    pnlPercent E C = JsNum.num ((C - E) / E * 100) := by
  simp [pnlPercent, jsDiv, hE, jsMulC]

/-- The decision block on a finite pnl value. -/
theorem decideAction_num (q : ℚ) :
    decideAction (JsNum.num q)
      = if q ≤ -20 then some ExitAction.sell_sl
        else if 50 ≤ q then some ExitAction.sell_tp else none := by
  simp [decideAction, jsGe, jsLe]

/-- C1: with entry price E > 0 and resolved current price C > 0, the
evaluator computes pnlPercent = (C-E)/E*100 and selects take-profit iff
pnlPercent ≥ 50, stop-loss iff pnlPercent ≤ -20 (both boundaries
inclusive), and takes no action otherwise. -/
theorem c1_exit_thresholds (E C : ℚ) (hE : 0 < E) (hC : 0 < C) :
    (decideAction (pnlPercent E C) = some ExitAction.sell_tp
       ↔ 50 ≤ (C - E) / E * 100) ∧
    (decideAction (pnlPercent E C) = some ExitAction.sell_sl
       ↔ (C - E) / E * 100 ≤ -20) ∧
    (decideAction (pnlPercent E C) = none
       ↔ -20 < (C - E) / E * 100 ∧ (C - E) / E * 100 < 50) := by
  rw [pnlPercent_pos_entry E C (ne_of_gt hE), decideAction_num]
  by_cases h1 : (C - E) / E * 100 ≤ -20
  · have h2 : ¬ (50 : ℚ) ≤ (C - E) / E * 100 := by linarith
    refine ⟨?_, ?_, ?_⟩ <;> simp [h1, h2]
  · by_cases h2 : (50 : ℚ) ≤ (C - E) / E * 100
    · refine ⟨?_, ?_, ?_⟩ <;> simp [h1, h2]
    · refine ⟨?_, ?_, ?_⟩ <;> simp [h1, h2]
      exact ⟨lt_of_not_le h1, lt_of_not_le h2⟩

/-- C1 witness: the boundary value pnl = 50 (entry 1, current 3/2)
triggers take-profit. -/
theorem c1_exit_thresholds_witness :
    decideAction (pnlPercent 1 (3 / 2)) = some ExitAction.sell_tp :=
  ((c1_exit_thresholds 1 (3 / 2) (by norm_num) (by norm_num)).1).mpr (by norm_num)

/-- C2 counterexample: on a position whose entry price is exactly zero and
whose price resolves to 1 via the quote fallback, one evaluation does
issue a recordSell (cash grows by 5 * 1 and the position is gone) and does
append a TradeRecord — refuting the claim that no exit decision is
produced. -/
theorem c2_zero_entry_counterexample :
    (evalPosition stZ [] ("0xz") posZ inpZ).2 ≠ ([] : List TradeRec) ∧
    (evalPosition stZ [] ("0xz") posZ inpZ).1.cash_eth = stZ.cash_eth + 5 * 1 ∧
    findPos (evalPosition stZ [] ("0xz") posZ inpZ).1.positions ("0xz") = none := by
  refine ⟨?_, ?_, ?_⟩ <;>
    norm_num [evalPosition, resolveCurrent, resolveStep1, inpZ, posZ, stZ,
      pnlPercent, jsDiv, jsMulC, decideAction, jsGe, jsLe, recordSell, findPos,
      sellUpdate, sellTradeRec, dustThreshold, delPos, actionTag]

/-- C2 (amended): a position whose entry price is exactly zero, once a
positive current price is resolved, is not treated as "no decision": the
pnl evaluates to +infinity, take-profit fires, recordSell is issued for
the full position amount at the resolved price and a sell_tp TradeRecord
is appended; the evaluator does not crash (it is a total function). -/
theorem c2_zero_entry_amended (st : PortfolioState) (log : List TradeRec)
    (address : String) (pos : Position) (inp : EvalInput)
    (hz : pos.entry_price_eth = 0) (hpos : 0 < (resolveCurrent pos inp).1) :
    evalPosition st log address pos inp
      = (recordSell st address pos.amount (resolveCurrent pos inp).1,
         log ++ [sellTradeRec pos address ExitAction.sell_tp
                   (resolveCurrent pos inp).1 (resolveCurrent pos inp).2]) := by
  have hpnl : pnlPercent pos.entry_price_eth (resolveCurrent pos inp).1
      = JsNum.posInf := by
    rw [hz]
    simp only [pnlPercent, jsDiv, sub_zero, if_pos rfl, if_pos hpos, jsMulC]
    norm_num
  have hact : decideAction JsNum.posInf = some ExitAction.sell_tp := by
    simp [decideAction, jsGe, jsLe]
  simp only [evalPosition, if_pos hpos, hpnl, hact]

/-- C2 amended witness: the concrete zero-entry scenario. -/
theorem c2_zero_entry_amended_witness :
    evalPosition stZ [] ("0xz") posZ inpZ
      = (recordSell stZ ("0xz") posZ.amount (resolveCurrent posZ inpZ).1,
         [] ++ [sellTradeRec posZ ("0xz") ExitAction.sell_tp
                  (resolveCurrent posZ inpZ).1 (resolveCurrent posZ inpZ).2]) :=
  c2_zero_entry_amended stZ [] ("0xz") posZ inpZ (by rfl)
    (by norm_num [resolveCurrent, resolveStep1, inpZ])

/-- Recording a pool address never changes the held amount. -/
theorem poolUpdate_amount (pos : Position) (pa : Option String) :
    (poolUpdate pos pa).amount = pos.amount := by
  unfold poolUpdate
  split <;> rfl

/-- With no pool address supplied, the pool update is the identity. -/
theorem poolUpdate_none (pos : Position) : poolUpdate pos none = pos := by
  simp [poolUpdate, jsTruthyStr]

/-- The weighted-average update in the applying case (resulting total
amount positive). -/
theorem buyUpdate_pos (pos : Position) (t p : ℚ) (h0 : 0 ≤ pos.amount)
    (ht : 0 < t) :
    buyUpdate pos t p
      = { pos with
            entry_price_eth :=
              (pos.amount * pos.entry_price_eth + t * p) / (pos.amount + t),
            amount := pos.amount + t } := by
  unfold buyUpdate
  rw [if_pos (by linarith)]

/-- The weighted-average update in the skipping case (resulting total
amount not positive). -/
theorem buyUpdate_skip (pos : Position) (t p : ℚ) (h : pos.amount + t ≤ 0) :
    buyUpdate pos t p = pos := by
  unfold buyUpdate
  rw [if_neg (by linarith)]

/-- The dust threshold is strictly positive. -/
theorem dustThreshold_pos : 0 < dustThreshold := by
  norm_num [dustThreshold]

/-- A sequence of all-positive buys starting from an existing position
with nonnegative amount: the final amount is the old amount plus all
tokens bought, and amount*entry accumulates the bought value exactly. -/
theorem applyBuys_value (l : List BuyCall) (st : PortfolioState)
    (symbol address : String) (pos : Position)
    (hf : findPos st.positions address = some pos) (h0 : 0 ≤ pos.amount)
    (hl : ∀ b ∈ l, 0 < b.tokensReceived) :
    ∃ pos2, findPos (applyBuys st symbol address l).positions address = some pos2 ∧
      pos2.amount = pos.amount + totTokens l ∧
      pos2.amount * pos2.entry_price_eth
        = pos.amount * pos.entry_price_eth + totValue l := by
  induction l generalizing st pos with
  | nil =>
    refine ⟨pos, ?_, ?_, ?_⟩ <;> simp [applyBuys, hf, totTokens, totValue]
  | cons b rest ih =>
    have hb : 0 < b.tokensReceived := hl b (List.mem_cons_self _ _)
    have hf2 : findPos
        (recordBuy st symbol address b.nativeSpent b.tokensReceived b.unitPrice
          none).positions address
        = some (buyUpdate pos b.tokensReceived b.unitPrice) := by
      simp only [recordBuy, posOrFresh, hf, poolUpdate_none]
      exact findPos_setPos_self _ _ _
    have h01 : 0 ≤ (buyUpdate pos b.tokensReceived b.unitPrice).amount := by
      rw [buyUpdate_pos pos _ _ h0 hb]
      linarith
    obtain ⟨pos2, hfin, ha, hv⟩ :=
      ih _ _ hf2 h01 (fun x hx => hl x (List.mem_cons_of_mem _ hx))
    have hkey : (buyUpdate pos b.tokensReceived b.unitPrice).amount
          * (buyUpdate pos b.tokensReceived b.unitPrice).entry_price_eth
        = pos.amount * pos.entry_price_eth + b.tokensReceived * b.unitPrice := by
      rw [buyUpdate_pos pos _ _ h0 hb]
      have hAt : pos.amount + b.tokensReceived ≠ 0 := ne_of_gt (by linarith)
      field_simp
    refine ⟨pos2, ?_, ?_, ?_⟩
    · simpa [applyBuys] using hfin
    · rw [ha, buyUpdate_pos pos _ _ h0 hb]
      simp [totTokens]
      ring
    · rw [hv, hkey]
      simp [totValue]
      ring

/-- All-positive buys have a nonnegative token total. -/
theorem totTokens_nonneg (l : List BuyCall) (hl : ∀ b ∈ l, 0 < b.tokensReceived) :
    0 ≤ totTokens l := by
  induction l with
  | nil => simp [totTokens]
  | cons b rest ih =>
    have hb := hl b (List.mem_cons_self _ _)
    have hr := ih (fun x hx => hl x (List.mem_cons_of_mem _ hx))
    simp only [totTokens, List.map_cons, List.sum_cons] at *
    linarith

/-- A nonempty sequence of all-positive buys has a positive token total. -/
theorem totTokens_pos (l : List BuyCall) (hl : ∀ b ∈ l, 0 < b.tokensReceived)
    (hne : l ≠ []) : 0 < totTokens l := by
  cases l with
  | nil => exact absurd rfl hne
  | cons b rest =>
    have hb := hl b (List.mem_cons_self _ _)
    have hr := totTokens_nonneg rest (fun x hx => hl x (List.mem_cons_of_mem _ hx))
    simp only [totTokens, List.map_cons, List.sum_cons] at *
    linarith

/-- C3: a sequence of recordBuy calls into one (initially absent) address,
each with a positive token amount, yields entryPriceNative equal to the
volume-weighted average (sum of a_i*p_i)/(sum of a_i) and amount equal to
the token total; and a single recordBuy whose resulting total amount would
be ≤ 0 leaves the existing position's amount and entry price unchanged
(the update is skipped). -/
theorem c3_vwap :
    (∀ st symbol address l,
        findPos st.positions address = none →
        (∀ b ∈ l, 0 < b.tokensReceived) → l ≠ [] →
        ∃ pos2,
          findPos (applyBuys st symbol address l).positions address = some pos2 ∧
          pos2.amount = totTokens l ∧
          pos2.entry_price_eth = totValue l / totTokens l) ∧
    (∀ st symbol address amountEth amountToken priceEth pos,
        findPos st.positions address = some pos →
        pos.amount + amountToken ≤ 0 →
        findPos (recordBuy st symbol address amountEth amountToken priceEth
            none).positions address = some pos) := by
  constructor
  · intro st symbol address l hf hl hne
    cases l with
    | nil => exact absurd rfl hne
    | cons b rest =>
      have hb : 0 < b.tokensReceived := hl b (List.mem_cons_self _ _)
      have hf2 : findPos
          (recordBuy st symbol address b.nativeSpent b.tokensReceived b.unitPrice
            none).positions address
          = some (buyUpdate (freshPosition symbol) b.tokensReceived b.unitPrice) := by
        simp only [recordBuy, posOrFresh, hf, poolUpdate_none]
        exact findPos_setPos_self _ _ _
      have h00 : (freshPosition symbol).amount = 0 := rfl
      have h01 : 0 ≤ (buyUpdate (freshPosition symbol) b.tokensReceived
          b.unitPrice).amount := by
        rw [buyUpdate_pos _ _ _ (le_of_eq h00.symm) hb, h00]
        simp
        linarith
      obtain ⟨pos2, hfin, ha, hv⟩ :=
        applyBuys_value rest _ symbol address _ hf2 h01
          (fun x hx => hl x (List.mem_cons_of_mem _ hx))
      have hfirstA : (buyUpdate (freshPosition symbol) b.tokensReceived
          b.unitPrice).amount = b.tokensReceived := by
        rw [buyUpdate_pos _ _ _ (le_of_eq h00.symm) hb, h00]
        simp
      have hfirstV : (buyUpdate (freshPosition symbol) b.tokensReceived
            b.unitPrice).amount
          * (buyUpdate (freshPosition symbol) b.tokensReceived
            b.unitPrice).entry_price_eth
          = b.tokensReceived * b.unitPrice := by
        rw [buyUpdate_pos _ _ _ (le_of_eq h00.symm) hb]
        have hfe : (freshPosition symbol).entry_price_eth = 0 := rfl
        rw [h00, hfe]
        have hAt : (0 : ℚ) + b.tokensReceived ≠ 0 := by
          rw [zero_add]
          exact ne_of_gt hb
        field_simp
      have hA : pos2.amount = totTokens (b :: rest) := by
        rw [ha, hfirstA]
        simp [totTokens]
      have hV : pos2.amount * pos2.entry_price_eth = totValue (b :: rest) := by
        rw [hv, hfirstV]
        simp [totValue]
      have htot : 0 < totTokens (b :: rest) := totTokens_pos _ hl hne
      refine ⟨pos2, by simpa [applyBuys] using hfin, hA, ?_⟩
      rw [eq_div_iff (ne_of_gt htot)]
      calc pos2.entry_price_eth * totTokens (b :: rest)
          = pos2.amount * pos2.entry_price_eth := by rw [hA]; ring
        _ = totValue (b :: rest) := hV
  · intro st symbol address amountEth amountToken priceEth pos hf hle
    simp only [recordBuy, posOrFresh, hf, poolUpdate_none,
      buyUpdate_skip pos amountToken priceEth hle]
    exact findPos_setPos_self _ _ _

/-- C3 witness: two buys (10 tokens at 2, 30 tokens at 4) into a fresh
address give amount 40 and entry price 140/40 = 3.5; and a skipped update
(selling-size-zero buy into the 5-token sample position with token amount
-5) leaves the position unchanged. -/
theorem c3_vwap_witness :
    (∃ pos2,
        findPos (applyBuys initialState ("C") ("0xc")
            [⟨0, 10, 2⟩, ⟨0, 30, 4⟩]).positions ("0xc") = some pos2 ∧
        pos2.amount = totTokens [⟨0, 10, 2⟩, ⟨0, 30, 4⟩] ∧
        pos2.entry_price_eth
          = totValue [⟨0, 10, 2⟩, ⟨0, 30, 4⟩]
            / totTokens [⟨0, 10, 2⟩, ⟨0, 30, 4⟩]) ∧
    findPos (recordBuy stA ("A") ("0xa") 0 (-5) 7 none).positions ("0xa")
      = some posA :=
  ⟨c3_vwap.1 initialState ("C") ("0xc") [⟨0, 10, 2⟩, ⟨0, 30, 4⟩] (by rfl)
      (by norm_num) (by simp),
   c3_vwap.2 stA ("A") ("0xa") 0 (-5) 7 posA (by rfl) (by norm_num [posA])⟩

/-- recordBuy with a strictly positive token amount preserves the
positive-amount invariant. -/
theorem recordBuy_posInvariant (st : PortfolioState) (symbol address : String)
    (amountEth amountToken priceEth : ℚ) (poolAddress : Option String)
    (hinv : posInvariant st) (ht : 0 < amountToken) :
    posInvariant (recordBuy st symbol address amountEth amountToken priceEth
      poolAddress) := by
  intro kv hkv
  simp only [recordBuy] at hkv
  rcases mem_setPos hkv with h | h
  · have h0 : 0 ≤ (posOrFresh st.positions address symbol).amount := by
      unfold posOrFresh
      cases hf : findPos st.positions address with
      | some p => exact le_of_lt (hinv (address, p) (findPos_mem hf))
      | none => simp [freshPosition]
    have h0p : 0 ≤ (poolUpdate (posOrFresh st.positions address symbol)
        poolAddress).amount := by
      rw [poolUpdate_amount]
      exact h0
    rw [h]
    rw [show ((address,
        buyUpdate (poolUpdate (posOrFresh st.positions address symbol) poolAddress)
          amountToken priceEth) : String × Position).2
      = buyUpdate (poolUpdate (posOrFresh st.positions address symbol) poolAddress)
          amountToken priceEth from rfl]
    rw [buyUpdate_pos _ _ _ h0p ht]
    simp only
    linarith
  · exact hinv kv h

/-- recordSell preserves the positive-amount invariant for any arguments:
a kept position stays above the (positive) dust threshold and a deleted
one is gone. -/
theorem recordSell_posInvariant (st : PortfolioState) (address : String)
    (amountToken executionPriceEth : ℚ) (hinv : posInvariant st) :
    posInvariant (recordSell st address amountToken executionPriceEth) := by
  unfold recordSell
  cases hf : findPos st.positions address with
  | none => exact hinv
  | some pos =>
    intro kv hkv
    simp only [sellUpdate] at hkv
    by_cases hd : pos.amount - amountToken ≤ dustThreshold
    · rw [if_pos hd] at hkv
      simp only at hkv
      exact hinv kv (mem_delPos hkv).1
    · rw [if_neg hd] at hkv
      simp only at hkv
      rcases mem_setPos hkv with h | h
      · rw [h]
        have := not_le.mp hd
        have := dustThreshold_pos
        simp only
        linarith
      · exact hinv kv h

/-- C4 counterexample: a single recordBuy with token amount 0 into a fresh
address (reachable through the public ledger interface) persists a
position with amount exactly 0, violating the claimed invariant. -/
theorem c4_invariant_counterexample :
    ¬ posInvariant (applyOps initialState
        [LedgerOp.buy ("S") ("0xd") 0 0 0 none]) := by
  intro h
  have hm := h (("0xd"), freshPosition ("S"))
  simp [applyOps, applyOp, recordBuy, posOrFresh, initialState, findPos,
    poolUpdate_none, buyUpdate, freshPosition, setPos] at hm

/-- C4 (amended): provided every recordBuy in the sequence supplies a
strictly positive token amount — as the orchestrator does, calling
recordBuy only when buyAmount > 0 — every position in the resulting state
has amount > 0 for any mix of recordBuy/recordSell calls; recordSell alone
always preserves the invariant (sub-dust remainders are deleted, never
persisted). -/
theorem c4_invariant_amended (st : PortfolioState) (ops : List LedgerOp)
    (hinv : posInvariant st) (hops : ∀ op ∈ ops, buyPositive op) :
    posInvariant (applyOps st ops) := by
  induction ops generalizing st with
  | nil => exact hinv
  | cons op rest ih =>
    simp only [applyOps]
    apply ih
    · cases op with
      | buy s a e t p pa =>
        exact recordBuy_posInvariant st s a e t p pa hinv
          (hops _ (List.mem_cons_self _ _))
      | sell a t p =>
        exact recordSell_posInvariant st a t p hinv
    · intro o ho
      exact hops o (List.mem_cons_of_mem _ ho)

/-- C4 amended witness: a concrete positive buy followed by a full sell
keeps the invariant. -/
theorem c4_invariant_amended_witness :
    posInvariant (applyOps initialState
      [LedgerOp.buy ("A") ("0xa") 0 100 2 none,
       LedgerOp.sell ("0xa") 100 3]) :=
  c4_invariant_amended initialState
    [LedgerOp.buy ("A") ("0xa") 0 100 2 none, LedgerOp.sell ("0xa") 100 3]
    (by simp [posInvariant, initialState])
    (by
      intro op hop
      simp only [List.mem_cons, List.mem_singleton] at hop
      rcases hop with h | h | h
      · rw [h]; norm_num [buyPositive]
      · rw [h]; simp [buyPositive]
      · cases h)

/-- C7: for a successful pool read the resolved price is
ratio = (sqrtPriceX96/2^96)^2 when the queried token address equals the
pool's token0 address case-insensitively and 1/ratio otherwise; in
particular, ratio = 4 (sqrtPriceX96 = 2^97) resolves to 4 for token0 and
to 1/4 = 0.25 for token1. -/
theorem c7_pool_price :
    (∀ s t0 ta, strToLower ta = strToLower t0 →
        getPrice s t0 ta = (s / 2 ^ 96) ^ 2) ∧
    (∀ s t0 ta, strToLower ta ≠ strToLower t0 →
        getPrice s t0 ta = 1 / (s / 2 ^ 96) ^ 2) ∧
    getPrice (2 ^ 97) ("0xAbC") ("0xaBc") = 4 ∧
    getPrice (2 ^ 97) ("0xAbC") ("0xDeF") = 1 / 4 := by
  have hpos : ∀ s t0 ta, (strToLower ta == strToLower t0) = true →
      getPrice s t0 ta = (s / 2 ^ 96) ^ 2 := by
    intro s t0 ta hb
    simp [getPrice, hb]
  have hneg : ∀ s t0 ta, (strToLower ta == strToLower t0) = false →
      getPrice s t0 ta = 1 / (s / 2 ^ 96) ^ 2 := by
    intro s t0 ta hb
    simp [getPrice, hb]
  refine ⟨?_, ?_, ?_, ?_⟩
  · intro s t0 ta h
    exact hpos s t0 ta (beq_iff_eq.mpr h)
  · intro s t0 ta h
    exact hneg s t0 ta (beq_eq_false_iff_ne.mpr h)
  · rw [hpos (2 ^ 97) ("0xAbC") ("0xaBc") (by decide)]
    norm_num
  · rw [hneg (2 ^ 97) ("0xAbC") ("0xDeF") (by decide)]
    norm_num

/-- C7 witness: the two case-insensitivity implications at concrete
addresses of mixed case. -/
theorem c7_pool_price_witness :
    getPrice 0 ("0xP") ("0xp") = ((0 : ℚ) / 2 ^ 96) ^ 2 ∧
    getPrice 0 ("0xP") ("0xq") = 1 / ((0 : ℚ) / 2 ^ 96) ^ 2 :=
  ⟨c7_pool_price.1 0 ("0xP") ("0xp") (by decide),
   c7_pool_price.2.1 0 ("0xP") ("0xq") (by decide)⟩

/-- When the pool read yields no usable price (provider missing, no pool
address recorded, read failed, or price 0), step 1 leaves both outputs 0. -/
theorem resolveStep1_fail (pos : Position) (inp : EvalInput)
    (h : inp.rpcReady = false ∨ jsTruthyStr pos.pool_address = false ∨
         inp.rpcPrice = none ∨ inp.rpcPrice = some 0) :
    resolveStep1 pos inp = (0, 0) := by
  rcases h with h | h | h | h
  · simp [resolveStep1, h]
  · simp [resolveStep1, h]
  · unfold resolveStep1
    split
    · simp [h]
    · rfl
  · unfold resolveStep1
    split
    · simp [h]
    · rfl

/-- A successful pool read (nonzero price) fixes step 1's outputs. -/
theorem resolveStep1_hit (pos : Position) (inp : EvalInput) (p : ℚ)
    (h1 : inp.rpcReady = true) (h2 : jsTruthyStr pos.pool_address = true)
    (h3 : inp.rpcPrice = some p) (hp : p ≠ 0) :
    resolveStep1 pos inp = (p, pos.amount * p) := by
  simp [resolveStep1, h1, h2, h3, hp]

/-- C8: price resolution tries the direct pool read first (attempted only
when a pool address is recorded and the chain reader is configured — the
outcome never depends on the pool oracle otherwise), falls back to the
sell quote exactly when the pool read yields no result, ignores the quote
when the pool read succeeds, and skips the position entirely — state and
trade log unchanged — when both steps fail. -/
theorem c8_price_fallback :
    (∀ st log address pos inp,
        (inp.rpcReady = false ∨ jsTruthyStr pos.pool_address = false ∨
         inp.rpcPrice = none ∨ inp.rpcPrice = some 0) →
        inp.quote = none →
        evalPosition st log address pos inp = (st, log)) ∧
    (∀ st log address pos inp,
        (inp.rpcReady = false ∨ jsTruthyStr pos.pool_address = false) →
        evalPosition st log address pos inp
          = evalPosition st log address pos
              { rpcReady := inp.rpcReady, rpcPrice := none, quote := inp.quote }) ∧
    (∀ pos inp q,
        (inp.rpcReady = false ∨ jsTruthyStr pos.pool_address = false ∨
         inp.rpcPrice = none ∨ inp.rpcPrice = some 0) →
        inp.quote = some q →
        resolveCurrent pos inp = (q.price, q.ethAmount)) ∧
    (∀ st log address pos inp p,
        inp.rpcReady = true → jsTruthyStr pos.pool_address = true →
        inp.rpcPrice = some p → p ≠ 0 →
        evalPosition st log address pos inp
          = evalPosition st log address pos
              { rpcReady := inp.rpcReady, rpcPrice := inp.rpcPrice,
                quote := none }) := by
  refine ⟨?_, ?_, ?_, ?_⟩
  · intro st log address pos inp hfail hq
    have h1 : resolveCurrent pos inp = (0, 0) := by
      simp [resolveCurrent, resolveStep1_fail pos inp hfail, hq]
    simp [evalPosition, h1]
  · intro st log address pos inp hfail
    have d1 : resolveStep1 pos inp = (0, 0) :=
      resolveStep1_fail pos inp (by tauto)
    have d2 : resolveStep1 pos
        { rpcReady := inp.rpcReady, rpcPrice := none, quote := inp.quote }
        = (0, 0) :=
      resolveStep1_fail pos _ (by tauto)
    have e1 : resolveCurrent pos inp = resolveCurrent pos
        { rpcReady := inp.rpcReady, rpcPrice := none, quote := inp.quote } := by
      simp [resolveCurrent, d1, d2]
    unfold evalPosition
    rw [e1]
  · intro pos inp q hfail hq
    simp [resolveCurrent, resolveStep1_fail pos inp hfail, hq]
  · intro st log address pos inp p h1 h2 h3 hp
    have e1 : resolveCurrent pos inp = (p, pos.amount * p) := by
      simp [resolveCurrent, resolveStep1_hit pos inp p h1 h2 h3 hp, hp]
    have d2 : resolveStep1 pos
        { rpcReady := inp.rpcReady, rpcPrice := inp.rpcPrice, quote := none }
        = (p, pos.amount * p) :=
      resolveStep1_hit pos
        { rpcReady := inp.rpcReady, rpcPrice := inp.rpcPrice, quote := none }
        p h1 h2 h3 hp
    have e2 : resolveCurrent pos
        { rpcReady := inp.rpcReady, rpcPrice := inp.rpcPrice, quote := none }
        = (p, pos.amount * p) := by
      simp [resolveCurrent, d2, hp]
    unfold evalPosition
    rw [e1, e2]

/-- C8 witness: with no pool oracle result and no quote, evaluating the
sample position changes neither the state nor the log. -/
theorem c8_price_fallback_witness :
    evalPosition stA [] ("0xa") posA
      { rpcReady := true, rpcPrice := none, quote := none } = (stA, []) :=
  c8_price_fallback.1 stA [] ("0xa") posA
    { rpcReady := true, rpcPrice := none, quote := none }
    (Or.inr (Or.inr (Or.inl rfl))) rfl

/-- C9: a buy attempt whose effective token amount is not positive (quote
gave no positive amount and the pool fallback produced none either) still
appends the buy TradeRecord but leaves the whole portfolio state unchanged
(recordBuy is not called); and when the quote returns a positive token
amount, exactly that amount and price are recorded, regardless of any
pool-price estimate. -/
theorem c9_buy_logging :
    (∀ st log symbol address poolAddress inp r,
        inp.swapResult = some r →
        (buyEffective poolAddress inp r).1 ≤ 0 →
        buyStep st log symbol address poolAddress inp
          = (st, log ++ [buyTradeRec symbol address
                           (buyEffective poolAddress inp r).1
                           (buyEffective poolAddress inp r).2])) ∧
    (∀ st log symbol address poolAddress inp r,
        inp.swapResult = some r →
        0 < r.buyAmount →
        buyStep st log symbol address poolAddress inp
          = (recordBuy st symbol address fixedBuySize r.buyAmount r.price
               poolAddress,
             log ++ [buyTradeRec symbol address r.buyAmount r.price])) := by
  constructor
  · intro st log symbol address pa inp r hs hle
    simp only [buyStep, hs]
    rw [if_neg (not_lt.mpr hle)]
  · intro st log symbol address pa inp r hs hpos
    have he : buyEffective pa inp r = (r.buyAmount, r.price) := by
      unfold buyEffective
      rw [if_neg]
      intro hcond
      exact absurd hcond.1 (ne_of_gt hpos)
    simp only [buyStep, hs, he]
    rw [if_pos hpos]

/-- C9 witness: a swap result with zero amount and no fallback is logged
without touching the state; a positive quoted amount is recorded verbatim
even though a pool price is available. -/
theorem c9_buy_logging_witness :
    buyStep stA [] ("B") ("0xb") none
        { swapResult := some { buyAmount := 0, price := 0 },
          rpcReady := false, rpcPrice := none }
      = (stA, [] ++ [buyTradeRec ("B") ("0xb")
          (buyEffective none
            { swapResult := some { buyAmount := 0, price := 0 },
              rpcReady := false, rpcPrice := none }
            { buyAmount := 0, price := 0 }).1
          (buyEffective none
            { swapResult := some { buyAmount := 0, price := 0 },
              rpcReady := false, rpcPrice := none }
            { buyAmount := 0, price := 0 }).2]) ∧
    buyStep stA [] ("B") ("0xb") (some ("0xpool"))
        { swapResult := some { buyAmount := 7, price := 2 },
          rpcReady := true, rpcPrice := some 9 }
      = (recordBuy stA ("B") ("0xb") fixedBuySize 7 2 (some ("0xpool")),
         [] ++ [buyTradeRec ("B") ("0xb") 7 2]) :=
  ⟨c9_buy_logging.1 stA [] ("B") ("0xb") none
      { swapResult := some { buyAmount := 0, price := 0 },
        rpcReady := false, rpcPrice := none }
      { buyAmount := 0, price := 0 } rfl
      (by norm_num [buyEffective, jsTruthyStr]),
   c9_buy_logging.2 stA [] ("B") ("0xb") (some ("0xpool"))
      { swapResult := some { buyAmount := 7, price := 2 },
        rpcReady := true, rpcPrice := some 9 }
      { buyAmount := 7, price := 2 } rfl (by norm_num)⟩
